import Mathlib

/-
  Verification development for the car-listing scraper `scrap_all.py`
  (class `CarValuationBot` plus `main`).

  The Python source is shallowly embedded: each piece of decision logic
  (the price resolver, the plate recognizer, the listing dedup loops,
  the per-listing pipeline body, the selector-adoption loop and the
  credential handling in `main`) becomes an executable Lean function over
  explicit inputs.  DOM queries, HTTP calls and the OCR provider are
  modelled as oracle inputs supplying precisely the values the code reads
  from them.
-/

/-! ### Generic string / list helpers mirroring Python primitives -/

/-- Python `needle in hay` on strings (substring containment). -/
def containsSub (hay nd : List Char) : Bool :=
  hay.tails.any (fun t => nd.isPrefixOf t)

/-- Python `needle in hay` on `String`s. -/
def strContains (hay nd : String) : Bool :=
  containsSub hay.data nd.data

/-- Python `needle in hay.lower()` (needle given already lower-case). -/
def lcontains (hay nd : String) : Bool :=
  containsSub (hay.data.map Char.toLower) nd.data

/-- Python truthiness of an optional string: present and non-empty. -/
def pyTruthy : Option String → Bool
  | some s => s ≠ ""
  | none => false

/-- Python `s.strip()` (kernel-reducible, unlike `String.trim`). -/
def pyStrip (s : String) : String :=
  ⟨((s.data.dropWhile Char.isWhitespace).reverse.dropWhile Char.isWhitespace).reverse⟩

/-- Python `s.lower()` (ASCII case folding, as the source only compares
ASCII selector phrases and titles). -/
def pyLower (s : String) : String :=
  ⟨s.data.map Char.toLower⟩

/-- `dict.fromkeys` / seen-set deduplication keeping the first occurrence of
each key, exactly as the `seen_titles` loops in the source do. -/
def dedupGo {α β : Type} [DecidableEq β] (key : α → β) (seen : List β) : List α → List α
  | [] => []
  | x :: xs =>
    if key x ∈ seen then dedupGo key seen xs
    else x :: dedupGo key (key x :: seen) xs

/-- Digits of a numeric token to a natural number (Python `int` on digits). -/
def natOfDigits (cs : List Char) : Nat :=
  cs.foldl (fun a c => 10 * a + (c.toNat - '0'.toNat)) 0

/-- Python `int(s)` restricted to the shapes the pipeline feeds it: raises
(`.error`) unless the trimmed string is non-empty and all digits. -/
def pyInt (s : String) : Except Unit Nat :=
  let t := pyStrip s
  if t ≠ "" ∧ t.data.all Char.isDigit then .ok (natOfDigits t.data) else .error ()

/-! ### PriceResolver: `get_valuation` price extraction (source lines 884-904)

The regex `£\s*\d+(?:,\d{3})*(?:\.\d{2})?` is embedded as a direct scanner;
every quantifier decision in this pattern is deterministic (the character
classes at each boundary are disjoint), so greedy maximal runs reproduce
Python `re.findall` exactly. -/

def digitChar (c : Char) : Bool := c.isDigit

/-- `(?:,\d{3})*`: consume `,ddd` groups greedily. -/
def priceGroups : List Char → (List Char × List Char)
  | ',' :: a :: b :: c :: r =>
    if a.isDigit ∧ b.isDigit ∧ c.isDigit then
      let (g, r') := priceGroups r
      (',' :: a :: b :: c :: g, r')
    else ([], ',' :: a :: b :: c :: r)
  | r => ([], r)

/-- `(?:\.\d{2})?`: consume one `.dd` if present. -/
def priceDecimal : List Char → (List Char × List Char)
  | '.' :: a :: b :: r =>
    if a.isDigit ∧ b.isDigit then (['.', a, b], r) else ([], '.' :: a :: b :: r)
  | r => ([], r)

/-- One attempt to match `£\s*\d+(?:,\d{3})*(?:\.\d{2})?` at the head of `cs`;
returns `(match, rest)` on success. -/
def priceMatchAt (cs : List Char) : Option (List Char × List Char) :=
  match cs with
  | '£' :: r0 =>
    let ws := r0.takeWhile Char.isWhitespace
    let r1 := r0.dropWhile Char.isWhitespace
    let ds := r1.takeWhile digitChar
    let r2 := r1.dropWhile digitChar
    if ds = [] then none
    else
      let (grps, r3) := priceGroups r2
      let (dec, r4) := priceDecimal r3
      some ('£' :: (ws ++ ds ++ grps ++ dec), r4)
  | _ => none

/-- `re.findall` of the currency pattern over a fragment (fueled scan;
every successful match consumes at least one character, so fuel
`length + 1` is always sufficient). -/
def priceFindallGo (fuel : Nat) (cs : List Char) : List (List Char) :=
  match fuel, cs with
  | 0, _ => []
  | _ + 1, [] => []
  | n + 1, c :: r =>
    match priceMatchAt (c :: r) with
    | some (m, rest) => m :: priceFindallGo n rest
    | none => priceFindallGo n r

def priceFindall (cs : List Char) : List (List Char) :=
  priceFindallGo (cs.length + 1) cs

/-- `int(re.sub(r'[£,.]', '', match.split('.')[0]))`: drop the decimal part,
keep the digits, read as an integer. -/
def matchValue (m : List Char) : Nat :=
  natOfDigits ((m.takeWhile (fun c => c ≠ '.')).filter Char.isDigit)

/-- The `found_prices` list of `get_valuation`: for each element text, strip,
keep fragments that are non-empty and under 50 characters, extract all
currency matches, parse each and keep those with value in `[100, 50000]`. -/
def foundPrices (elems : List String) : List (String × Nat) :=
  elems.flatMap (fun e =>
    let t := pyStrip e
    if t ≠ "" ∧ t.length < 50 then
      (priceFindall t.data).filterMap (fun m =>
        let v := matchValue m
        if 100 ≤ v ∧ v ≤ 50000 then some (String.mk m, v) else none)
    else [])

/-- Keep the later pair only when its value is strictly larger. -/
def maxPairStep (b y : String × Nat) : String × Nat := if b.2 < y.2 then y else b

/-- `found_prices.sort(key=value, reverse=True); found_prices[0]`: Python's
sort is stable, so the selected element is the first one attaining the
maximum value. -/
def pickMaxPair : List (String × Nat) → Option (String × Nat)
  | [] => none
  | x :: xs => some (xs.foldl maxPairStep x)

/-- Price extraction tail of `get_valuation` (lines 884-904). -/
def extractPrice (elems : List String) : Option String :=
  match pickMaxPair (foundPrices elems) with
  | none => none
  | some pv => some pv.1

/-! ### PlateRecognizer: `detect_license_plate` (source lines 557-647)

The six UK plate regexes are embedded as direct scanners.  In each pattern
every quantifier boundary separates disjoint character classes
(`[A-Z]` / `\d` / `\s` / `-`), so greedy maximal consumption without
backtracking reproduces Python `re.findall` semantics; for `\d{1,3}`
followed by `\s*`-then-letter (or letter), a digit run longer than 3 can
never match for any choice of repetitions, so the scanner requires the
maximal digit run to have length 1..3. -/

/-- Python `\w` (ASCII view, the OCR text is upper-cased ASCII). -/
def wordChar (c : Char) : Bool := c.isAlphanum || c = '_'

/-- Word-character test across a position edge (`none` = text boundary). -/
def isWordB : Option Char → Bool
  | some c => wordChar c
  | none => false

def ucChar (c : Char) : Bool := 'A' ≤ c && c ≤ 'Z'

/-- Exactly `n` characters of class `p`. -/
def takeCountP (p : Char → Bool) : Nat → List Char → Option (List Char × List Char)
  | 0, cs => some ([], cs)
  | _ + 1, [] => none
  | n + 1, c :: cs =>
    if p c then (takeCountP p n cs).map (fun ar => (c :: ar.1, ar.2)) else none

/-- `\s*` (greedy). -/
def wsStar (cs : List Char) : List Char × List Char :=
  (cs.takeWhile Char.isWhitespace, cs.dropWhile Char.isWhitespace)

/-- `[-]?` (greedy). -/
def dashOpt : List Char → (List Char × List Char)
  | '-' :: r => (['-'], r)
  | r => ([], r)

/-- `\d{1,3}` when followed by a class disjoint from digits: the maximal
digit run must have length 1..3, else no repetition count can match. -/
def digitRun13 (cs : List Char) : Option (List Char × List Char) :=
  let r := cs.takeWhile digitChar
  if 1 ≤ r.length ∧ r.length ≤ 3 then some (r, cs.dropWhile digitChar) else none

/-- `\b[A-Z]{2}\d{2}\s*[A-Z]{3}\b` -/
def p1At (prev : Option Char) (cs : List Char) : Option (List Char × List Char) := do
  if isWordB prev then none
  else
    let (a, r1) ← takeCountP ucChar 2 cs
    let (b, r2) ← takeCountP digitChar 2 r1
    let (w, r3) := wsStar r2
    let (d, r4) ← takeCountP ucChar 3 r3
    if isWordB r4.head? then none else pure (a ++ b ++ w ++ d, r4)

/-- `\b[A-Z]{2}[-]?\d{2}\s*[-]?[A-Z]{3}\b` -/
def p2At (prev : Option Char) (cs : List Char) : Option (List Char × List Char) := do
  if isWordB prev then none
  else
    let (a, r1) ← takeCountP ucChar 2 cs
    let (h1, r2) := dashOpt r1
    let (b, r3) ← takeCountP digitChar 2 r2
    let (w, r4) := wsStar r3
    let (h2, r5) := dashOpt r4
    let (d, r6) ← takeCountP ucChar 3 r5
    if isWordB r6.head? then none else pure (a ++ h1 ++ b ++ w ++ h2 ++ d, r6)

/-- `\b[A-Z]\d{1,3}\s*[A-Z]{3}\b` -/
def p3At (prev : Option Char) (cs : List Char) : Option (List Char × List Char) := do
  if isWordB prev then none
  else
    let (a, r1) ← takeCountP ucChar 1 cs
    let (ds, r2) ← digitRun13 r1
    let (w, r3) := wsStar r2
    let (d, r4) ← takeCountP ucChar 3 r3
    if isWordB r4.head? then none else pure (a ++ ds ++ w ++ d, r4)

/-- `\b[A-Z]{3}\s*\d{1,3}[A-Z]\b` -/
def p4At (prev : Option Char) (cs : List Char) : Option (List Char × List Char) := do
  if isWordB prev then none
  else
    let (a, r1) ← takeCountP ucChar 3 cs
    let (w, r2) := wsStar r1
    let (ds, r3) ← digitRun13 r2
    let (z, r4) ← takeCountP ucChar 1 r3
    if isWordB r4.head? then none else pure (a ++ w ++ ds ++ z, r4)

/-- `\b[A-Z][-]?\d{1,3}\s*[-]?[A-Z]{3}\b` -/
def p5At (prev : Option Char) (cs : List Char) : Option (List Char × List Char) := do
  if isWordB prev then none
  else
    let (a, r1) ← takeCountP ucChar 1 cs
    let (h1, r2) := dashOpt r1
    let (ds, r3) ← digitRun13 r2
    let (w, r4) := wsStar r3
    let (h2, r5) := dashOpt r4
    let (d, r6) ← takeCountP ucChar 3 r5
    if isWordB r6.head? then none else pure (a ++ h1 ++ ds ++ w ++ h2 ++ d, r6)

/-- Continuation of pattern 6 after the `EU`/`GB` alternative. -/
def p6Cont (pre : List Char) (r : List Char) : Option (List Char × List Char) := do
  let (w1, r1) := wsStar r
  let (a, r2) ← takeCountP ucChar 2 r1
  let (b, r3) ← takeCountP digitChar 2 r2
  let (w2, r4) := wsStar r3
  let (d, r5) ← takeCountP ucChar 3 r4
  pure (pre ++ w1 ++ a ++ b ++ w2 ++ d, r5)

/-- `(?:EU|GB)\s*[A-Z]{2}\d{2}\s*[A-Z]{3}` (no word boundaries). -/
def p6At (_prev : Option Char) (cs : List Char) : Option (List Char × List Char) :=
  match cs with
  | 'E' :: 'U' :: r => p6Cont ['E', 'U'] r
  | 'G' :: 'B' :: r => p6Cont ['G', 'B'] r
  | _ => none

/-- `re.findall` over the text for one position matcher, scanning left to
right, non-overlapping, tracking the previous character for `\b`.  Every
successful match of the plate patterns consumes at least one character, so
fuel `length + 1` always suffices. -/
def findallGo (m : Option Char → List Char → Option (List Char × List Char)) :
    Nat → Option Char → List Char → List (List Char)
  | 0, _, _ => []
  | _ + 1, _, [] => []
  | n + 1, prev, c :: r =>
    match m prev (c :: r) with
    | some (mt, rest) => mt :: findallGo m n (mt.getLast? <|> prev) rest
    | none => findallGo m n (some c) r

def findallP (m : Option Char → List Char → Option (List Char × List Char))
    (cs : List Char) : List (List Char) :=
  findallGo m (cs.length + 1) none cs

/-- The ordered pattern list of `detect_license_plate`. -/
def plateMatchers : List (Option Char → List Char → Option (List Char × List Char)) :=
  [p1At, p2At, p3At, p4At, p5At, p6At]

/-- `text.upper().replace('\n', ' ').replace('\r', ' ')` -/
def normOcr (s : String) : List Char :=
  s.data.map (fun c =>
    let u := c.toUpper
    if u = '\n' ∨ u = '\r' then ' ' else u)

/-- `match.replace(' ', '').replace('-', '')` -/
def cleanPlate (m : List Char) : List Char :=
  m.filter (fun c => c != ' ' && c != '-')

/-- All matches of all patterns in listed order, separators stripped. -/
def allPlateCandidates (t : List Char) : List (List Char) :=
  (plateMatchers.flatMap (fun m => findallP m t)).map cleanPlate

/-- `plates_found`: cleaned candidates of length at least 6, in order. -/
def platesFound (t : List Char) : List (List Char) :=
  (allPlateCandidates t).filter (fun c => decide (6 ≤ c.length))

/-- Pattern-matching tail of one OCR pass: normalize, collect, filter,
deduplicate preserving first occurrence, return the first survivor. -/
def detect_from_text (s : String) : Option String :=
  match dedupGo (fun c => c) [] (platesFound (normOcr s)) with
  | [] => none
  | p :: _ => some (String.mk p)

/-- One OCR attempt's observable outcome: the request raised, the provider
flagged `IsErroredOnProcessing`, or it returned parsed text. -/
inductive OcrResp where
  | raise
  | errored
  | text (s : String)

/-- The retry loop of `detect_license_plate`: `i` is the attempt index,
the `Nat` argument the remaining attempts.  A raised exception is caught
(`except Exception`) and becomes a retry or a `None` return; an errored
response retries; empty parsed text returns `None` immediately; text with
no surviving plate retries. -/
def dlpLoop (resp : Nat → OcrResp) (i : Nat) : Nat → Option String
  | 0 => none
  | n + 1 =>
    match resp i with
    | .raise => dlpLoop resp (i + 1) n
    | .errored => dlpLoop resp (i + 1) n
    | .text s =>
      if s = "" then none
      else
        match detect_from_text s with
        | some p => some p
        | none => dlpLoop resp (i + 1) n

/-- `detect_license_plate(image_url, max_retries)` with the OCR provider
modelled by `resp` (outcome of each attempt). -/
def detect_license_plate (resp : Nat → OcrResp) (image_url : String)
    (max_retries : Nat) : Option String :=
  if strContains image_url "svg+xml" then none
  else dlpLoop resp 0 max_retries

/-! ### ListingExtractor: AutoTrader (`scrape_autotrader`, lines 268-476) -/

/-- Python `s.startswith(p)` (kernel-reducible). -/
def pyStartsWith (s p : String) : Bool := p.data.isPrefixOf s.data

/-- Python `s.replace(old, new)` on char lists, non-overlapping left-to-right
(fueled; each step consumes at least one character for non-empty `old`). -/
def replaceGo (pat rep : List Char) : Nat → List Char → List Char
  | 0, cs => cs
  | _ + 1, [] => []
  | n + 1, c :: r =>
    if pat.isPrefixOf (c :: r) then rep ++ replaceGo pat rep n ((c :: r).drop pat.length)
    else c :: replaceGo pat rep n r

def pyReplace (s pat rep : String) : String :=
  ⟨replaceGo pat.data rep.data (s.data.length + 1) s.data⟩

def digitCommaChar (c : Char) : Bool := c.isDigit || c = ','

/-- `re.search(r'£([\d,]+)', listing_text)` and `f"£{group(1)}"`: the first
`£` followed by at least one digit-or-comma, with the maximal such run. -/
def atPriceGo : List Char → Option String
  | [] => none
  | '£' :: r =>
    let run := r.takeWhile digitCommaChar
    if run = [] then atPriceGo r else some (String.mk ('£' :: run))
  | _ :: r => atPriceGo r

def atPrice (txt : String) : Option String := atPriceGo txt.data

/-- The `src and src.startswith('http') and 'placeholder' not in src.lower()
and 'logo' not in src.lower() and 'icon' not in src.lower()` filter. -/
def goodImgUrl (src : String) : Bool :=
  pyStartsWith src "http" && !lcontains src "placeholder" &&
    !lcontains src "logo" && !lcontains src "icon"

/-- The `for attr in ['src', 'data-src', 'data-lazy-src']` loop over one
`img` element: the first attribute value passing the filter is kept
(`none` models both a missing attribute and a raising `get_attribute`). -/
def pickImgSrc : List (Option String) → Option String
  | [] => none
  | none :: rest => pickImgSrc rest
  | some s :: rest => if goodImgUrl s then some s else pickImgSrc rest

/-- `extract_images_from_detail_page` (lines 230-266): collect, dedup via
`dict.fromkeys` (first occurrence), cap at `max_images`. -/
def extract_images_from_detail_page (imgs : List (List (Option String)))
    (max_images : Nat) : List String :=
  (dedupGo (fun u => u) [] (imgs.filterMap pickImgSrc)).take max_images

/-- One AutoTrader candidate element, at the granularity the loop body
reads it: its `.text`, the outcome of the title selector chain and
fallback, the detail link, and the detail page's `img` elements
(attribute values `src`, `data-src`, `data-lazy-src` per element). -/
structure ATCand where
  listingText : String
  titleResolved : Option String
  detailLink : Option String
  detailImgs : List (List (Option String))

structure ATRecord where
  title : String
  price : String
  images : List String
deriving DecidableEq

/-- The skip-phrase filter of the AutoTrader loop (line 382). -/
def atSkip (txt : String) : Bool :=
  lcontains txt "make and model" || lcontains txt "search radius" ||
    lcontains txt "postcode" || lcontains txt "price range"

/-- `unique_key = f"{car['title'].lower().strip()}_{car.get('price', '')}"` -/
def atKey (r : ATRecord) : String := pyStrip (pyLower r.title) ++ "_" ++ r.price

/-- Body of the AutoTrader per-listing loop up to the dedup check: returns
the record a candidate would contribute, or `none` if any gate fails
(text too short, chrome phrase, unresolved title, no price match). -/
def atBuild (c : ATCand) : Option ATRecord :=
  if c.listingText.length < 20 then none
  else if atSkip c.listingText then none
  else
    match c.titleResolved with
    | none => none
    | some t =>
      if t = "" then none
      else
        match atPrice c.listingText with
        | none => none
        | some p =>
          some ⟨t, p,
            match c.detailLink with
            | some _ => extract_images_from_detail_page c.detailImgs 4
            | none => []⟩

def atBuildAll (cs : List ATCand) : List ATRecord := cs.filterMap atBuild

/-- `scrape_autotrader` record accumulation (lines 375-464): build each
candidate, then keep first occurrences of `unique_key`. -/
def scrape_autotrader (cs : List ATCand) : List ATRecord :=
  dedupGo atKey [] (atBuildAll cs)

/-! ### ListingExtractor: PistonHeads (`scrape_pistonheads`, lines 478-555) -/

/-- One PistonHeads candidate: stripped text of the title element (if any),
the stored price string (if a price node was found), and the `img`
elements' `(src, data-src)` attribute pairs. -/
structure PHCand where
  titleElem : Option String
  priceText : Option String
  imgs : List (Option String × Option String)

structure PHRecord where
  title : String
  price : String
  images : List String
deriving DecidableEq

/-- Python `a or b` on optional strings (`""` is falsy). -/
def pyOr (a b : Option String) : Option String :=
  match a with
  | some s => if s = "" then b else some s
  | none => b

/-- `urljoin('https://www.pistonheads.com', u)` for the URL shapes reaching
it: absolute URLs pass through, root-relative paths attach to the origin. -/
def urljoinPH (u : String) : String :=
  if pyStartsWith u "http" then u else "https://www.pistonheads.com" ++ u

/-- The PistonHeads image loop (lines 525-533): `src or data-src`, keep if
truthy and `'placeholder' not in url.lower()`, absolutize, switch
`/Thumbnail/` to `/Fullsize/`, cap at 4.  No dedup, no logo/icon filter. -/
def phImages (imgs : List (Option String × Option String)) : List String :=
  (imgs.filterMap (fun sd =>
    match pyOr sd.1 sd.2 with
    | some u =>
      if u ≠ "" ∧ lcontains u "placeholder" = false then
        some (pyReplace (urljoinPH u) "/Thumbnail/" "/Fullsize/")
      else none
    | none => none)).take 4

/-- Body of the PistonHeads per-listing loop up to the dedup check: a
record is produced only when the title is present and truthy, a price was
stored and truthy, and at least `min_images` images survived. -/
def phBuild (min_images : Nat) (c : PHCand) : Option PHRecord :=
  match c.titleElem with
  | none => none
  | some t =>
    if t ≠ "" ∧ pyTruthy c.priceText = true ∧ min_images ≤ (phImages c.imgs).length then
      some ⟨t, c.priceText.getD "", phImages c.imgs⟩
    else none

/-- `title_key = car['title'].lower().strip()` — the PistonHeads dedup key
uses the title only. -/
def phKey (r : PHRecord) : String := pyStrip (pyLower r.title)

def phBuildAll (min_images : Nat) (cs : List PHCand) : List PHRecord :=
  cs.filterMap (phBuild min_images)

/-- `scrape_pistonheads` record accumulation; `min_images` defaults to 2 in
the source signature. -/
def scrape_pistonheads (min_images : Nat) (cs : List PHCand) : List PHRecord :=
  dedupGo phKey [] (phBuildAll min_images cs)

/-! ### Strategy adoption loop of `scrape_autotrader` (lines 342-348) -/

/-- One step of `for selector in all_selectors`: a raising `find_elements`
is skipped; a non-empty result strictly larger than the current set
replaces it (`if found and len(found) > len(listings)`). -/
def stratStep {α : Type} (acc : List α) (r : Except Unit (List α)) : List α :=
  match r with
  | .error _ => acc
  | .ok found =>
    if found.isEmpty then acc
    else if acc.length < found.length then found else acc

def adoptLargest {α : Type} (rs : List (Except Unit (List α))) : List α :=
  rs.foldl stratStep []

/-- The candidate sets of the strategies that did not raise. -/
def okLists {α : Type} (rs : List (Except Unit (List α))) : List (List α) :=
  rs.filterMap (fun r => match r with | .ok l => some l | .error _ => none)

/-! ### Pipeline: per-listing body of `process_cars` (lines 946-979) and
`get_valuation` (lines 649-914) -/

/-- What the per-listing pipeline body reads from a scraped record. -/
structure Car where
  mileage : Option String
  images : List String

/-- The `for img_url in car.get('images', [])[:4]` loop: `plate` holds the
last detection result, breaking on the first truthy one. -/
def plateLoopAux (detect : String → Option String) (cur : Option String) :
    List String → Option String
  | [] => cur
  | u :: rest =>
    let p := detect u
    if pyTruthy p then p else plateLoopAux detect p rest

/-- `get_valuation`: the whole browser session is wrapped in
`try ... except Exception: return None`, so a session that raises
(`.error`) yields `None`; a session that returns early with no result
(`.ok none`, e.g. the details-page timeout) yields `None`; otherwise the
price-extraction tail runs on the `£`-containing element texts. -/
def get_valuation (body : Except Unit (Option (List String))) : Option String :=
  match body with
  | .error _ => none
  | .ok none => none
  | .ok (some elems) => extractPrice elems

/-- The enrichment fields written by the pipeline body, plus an
instrumentation counter of how many `get_valuation` calls were made. -/
structure EnrichedCar where
  detected_plate : String
  valuation : String
  valCalls : Nat
deriving DecidableEq

/-- Per-listing body of `process_cars`: plate loop over the first 4 images,
sentinel `"Not detected"`, then the `if plate and car.get('mileage')` gate;
inside the gate, `int(car['mileage'])` raising is caught as `"Error"`, a
falsy valuation becomes `"Failed"`, a truthy one is stored. -/
def process_car (detect : String → Option String)
    (valBody : Except Unit (Option (List String))) (car : Car) : EnrichedCar :=
  let plate := plateLoopAux detect none (car.images.take 4)
  let detected := if pyTruthy plate then plate.getD "" else "Not detected"
  if pyTruthy plate && pyTruthy car.mileage then
    match pyInt (car.mileage.getD "") with
    | .error _ => ⟨detected, "Error", 0⟩
    | .ok _ =>
      match get_valuation valBody with
      | some v => ⟨detected, if v = "" then "Failed" else v, 1⟩
      | none => ⟨detected, "Failed", 1⟩
  else ⟨detected, "No plate/mileage", 0⟩

/-! ### `main` (lines 1047-1077): configuration and top-level sequencing -/

/-- The environment variables `main` reads (`None` = unset). -/
structure Env where
  senderEmail : Option String
  senderPassword : Option String
  recipientEmail : Option String

/-- The externally visible top-level actions of `main`, in order. -/
inductive MainAction where
  | processCars
  | saveCsv
  | sendReport (sender password recipient : String)
deriving DecidableEq

/-- `main`: `os.getenv` substitutes placeholder defaults for missing
credentials and the bot then runs unconditionally — there is no
credential validation or early abort. -/
def mainSteps (env : Env) : List MainAction :=
  let sender := env.senderEmail.getD "your-email@gmail.com"
  let password := env.senderPassword.getD "xxxx xxxx xxxx xxxx"
  let recipient := env.recipientEmail.getD "your-email@gmail.com"
  [MainAction.processCars, MainAction.saveCsv,
    MainAction.sendReport sender password recipient]

/-- PistonHeads candidates with equal titles and different prices. -/
def phCandA : PHCand :=
  ⟨some "Ford Focus Zetec", some "£5,000",
    [(some "https://a/1.jpg", none), (some "https://a/2.jpg", none)]⟩

def phCandB : PHCand :=
  ⟨some "Ford Focus Zetec", some "£6,000",
    [(some "https://b/1.jpg", none), (some "https://b/2.jpg", none)]⟩

/-- AutoTrader candidates with equal titles and different prices. -/
def atCandA : ATCand :=
  ⟨"Ford Focus Zetec Edition £5,000 45,000 miles Manual Petrol",
    some "Ford Focus Zetec Edition", none, []⟩

def atCandB : ATCand :=
  ⟨"Ford Focus Zetec Edition £6,000 52,000 miles Manual Petrol",
    some "Ford Focus Zetec Edition", none, []⟩

/-- A PistonHeads candidate whose two images are the same logo URL. -/
def phCandLogo : PHCand :=
  ⟨some "BMW 320d M Sport", some "£9,000",
    [(some "https://x/logo.jpg", none), (some "https://x/logo.jpg", none)]⟩

/-- An OCR-attempt outcome carrying no recoverable plate: a raised request,
an errored response, or text from which the pattern stage recovers
nothing. -/
def noPlateResp : OcrResp → Prop
  | .raise => True
  | .errored => True
  | .text s => detect_from_text s = none

/-! ### Generic facts about the seen-set dedup loop -/

theorem dedupGo_sublist {α β : Type} [DecidableEq β] (key : α → β) (seen : List β)
    (l : List α) : (dedupGo key seen l).Sublist l := by
  induction l generalizing seen with
  | nil => simp [dedupGo]
  | cons x xs ih =>
    simp only [dedupGo]
    split
    · exact (ih seen).cons x
    · exact (ih _).cons₂ x

theorem dedupGo_key_not_mem {α β : Type} [DecidableEq β] (key : α → β) :
    ∀ (seen : List β) (l : List α) (x : α), x ∈ dedupGo key seen l → key x ∉ seen := by
  intro seen l
  induction l generalizing seen with
  | nil => intro x hx; simp [dedupGo] at hx
  | cons y ys ih =>
    intro x hx
    simp only [dedupGo] at hx
    split at hx
    · exact ih _ x hx
    · rcases List.mem_cons.mp hx with h | h
      · subst h; assumption
      · have hni := ih _ x h
        intro hc
        exact hni (List.mem_cons_of_mem _ hc)

theorem dedupGo_pairwise {α β : Type} [DecidableEq β] (key : α → β) :
    ∀ (seen : List β) (l : List α),
      (dedupGo key seen l).Pairwise (fun a b => key a ≠ key b) := by
  intro seen l
  induction l generalizing seen with
  | nil => simp [dedupGo]
  | cons y ys ih =>
    simp only [dedupGo]
    split
    · exact ih _
    · refine List.Pairwise.cons ?_ (ih _)
      intro b hb hkey
      exact dedupGo_key_not_mem key _ _ b hb (by simp [← hkey])

theorem dedupGo_mem_of_uniqueKey {α β : Type} [DecidableEq β] (key : α → β) :
    ∀ (seen : List β) (l : List α) (r : α), r ∈ l → key r ∉ seen →
      (∀ q ∈ l, q ≠ r → key q ≠ key r) → r ∈ dedupGo key seen l := by
  intro seen l
  induction l generalizing seen with
  | nil => intro r h; simp at h
  | cons y ys ih =>
    intro r hr hseen huniq
    simp only [dedupGo]
    rcases List.mem_cons.mp hr with h | h
    · subst h
      rw [if_neg hseen]
      exact List.mem_cons_self _ _
    · by_cases hy : y = r
      · subst hy
        rw [if_neg hseen]
        exact List.mem_cons_self _ _
      · have hk : key y ≠ key r := huniq y (List.mem_cons_self y ys) hy
        split
        · exact ih _ r h hseen (fun q hq => huniq q (List.mem_cons_of_mem _ hq))
        · refine List.mem_cons_of_mem _
            (ih _ r h ?_ (fun q hq => huniq q (List.mem_cons_of_mem _ hq)))
          intro hc
          rcases List.mem_cons.mp hc with hc1 | hc2
          · exact hk hc1.symm
          · exact hseen hc2

theorem dedupGo_head {α β : Type} [DecidableEq β] (key : α → β) (l : List α) :
    (dedupGo key [] l).head? = l.head? := by
  cases l with
  | nil => rfl
  | cons x xs => simp [dedupGo]

theorem string_data_append (a b : String) : (a ++ b).data = a.data ++ b.data := by
  cases a; cases b; rfl

theorem string_append_right_inj (a : String) {b c : String}
    (h : a ++ b = a ++ c) : b = c := by
  have hd : a.data ++ b.data = a.data ++ c.data := by
    have h1 := congrArg String.data h
    rwa [string_data_append, string_data_append] at h1
  have h2 : b.data = c.data := List.append_cancel_left hd
  cases b; cases c; exact congrArg String.mk h2

/-! ### C1: deduplication keys of the two scrapers -/

/-- C1 counterexample: on PistonHeads the dedup key is the normalized title
alone, so of two candidates with equal normalized titles and different
prices (`£5,000` vs `£6,000`, both with resolved titles, prices and 2
images) only the first is retained — the claim says both are. -/
theorem C1_counterexample :
    scrape_pistonheads 2 [phCandA, phCandB] =
      [⟨"Ford Focus Zetec", "£5,000", ["https://a/1.jpg", "https://a/2.jpg"]⟩] ∧
    (⟨"Ford Focus Zetec", "£6,000", ["https://b/1.jpg", "https://b/2.jpg"]⟩ : PHRecord) ∉
      scrape_pistonheads 2 [phCandA, phCandB] := by
  constructor
  · decide
  · decide

/-- C1 (amended): within one scrape batch, records emitted by
`scrape_autotrader` are pairwise distinct on the key
`title.lower().strip() + "_" + price` — in particular no two share both the
normalized title and the price — and the output preserves the order of
first occurrence (it is a sublist of the gate-passing candidate records);
a record whose key is unique in the batch is always retained, and equal
normalized titles with different prices give different keys, so AutoTrader
retains both.  `scrape_pistonheads` deduplicates on the normalized title
ALONE (so it also never emits two records with equal normalized title and
price, but drops a second record with the same title even when prices
differ), again preserving first-occurrence order. -/
theorem C1_dedup_keys :
    (∀ cs : List ATCand, (scrape_autotrader cs).Pairwise
      (fun a b => ¬(pyStrip (pyLower a.title) = pyStrip (pyLower b.title) ∧
        a.price = b.price)))
    ∧ (∀ cs : List ATCand, (scrape_autotrader cs).Sublist (atBuildAll cs))
    ∧ (∀ (cs : List ATCand) (r : ATRecord), r ∈ atBuildAll cs →
        (∀ q ∈ atBuildAll cs, q ≠ r → atKey q ≠ atKey r) →
        r ∈ scrape_autotrader cs)
    ∧ (∀ r q : ATRecord, pyStrip (pyLower r.title) = pyStrip (pyLower q.title) →
        r.price ≠ q.price → atKey r ≠ atKey q)
    ∧ scrape_autotrader [atCandA, atCandB] =
        [⟨"Ford Focus Zetec Edition", "£5,000", []⟩,
         ⟨"Ford Focus Zetec Edition", "£6,000", []⟩]
    ∧ (∀ (m : Nat) (cs : List PHCand), (scrape_pistonheads m cs).Pairwise
        (fun a b => phKey a ≠ phKey b))
    ∧ (∀ (m : Nat) (cs : List PHCand), (scrape_pistonheads m cs).Sublist (phBuildAll m cs)) := by
  refine ⟨?_, ?_, ?_, ?_, ?_, ?_, ?_⟩
  · intro cs
    exact (dedupGo_pairwise atKey [] (atBuildAll cs)).imp (by
      intro a b hk hc
      apply hk
      unfold atKey
      rw [hc.1, hc.2])
  · intro cs
    exact dedupGo_sublist atKey [] (atBuildAll cs)
  · intro cs r hm hu
    exact dedupGo_mem_of_uniqueKey atKey [] (atBuildAll cs) r hm (List.not_mem_nil _) hu
  · intro r q ht hp hk
    apply hp
    unfold atKey at hk
    rw [ht] at hk
    exact string_append_right_inj _ hk
  · decide
  · intro m cs
    exact dedupGo_pairwise phKey [] (phBuildAll m cs)
  · intro m cs
    exact dedupGo_sublist phKey [] (phBuildAll m cs)

/-- Witness for `C1_dedup_keys`: its unique-key retention clause applied to
the concrete two-candidate AutoTrader batch. -/
theorem C1_dedup_keys_witness :
    (⟨"Ford Focus Zetec Edition", "£5,000", []⟩ : ATRecord) ∈
      scrape_autotrader [atCandA, atCandB] :=
  C1_dedup_keys.2.2.1 [atCandA, atCandB] _ (by decide) (by decide)

/-! ### C3: the selector-adoption loop takes the largest set, never a union -/

theorem stratStep_le {α : Type} (acc : List α) (r : Except Unit (List α)) :
    acc.length ≤ (stratStep acc r).length := by
  cases r with
  | error e => simp [stratStep]
  | ok found =>
    simp only [stratStep]
    split
    · exact le_refl _
    · split
      · omega
      · exact le_refl _

theorem stratStep_cases {α : Type} (acc : List α) (r : Except Unit (List α)) :
    stratStep acc r = acc ∨ ∃ l, r = Except.ok l ∧ stratStep acc r = l := by
  cases r with
  | error e => left; rfl
  | ok found =>
    simp only [stratStep]
    split
    · left; rfl
    · split
      · right; exact ⟨found, rfl, rfl⟩
      · left; rfl

theorem adoptFold_le {α : Type} (rs : List (Except Unit (List α))) :
    ∀ acc : List α, acc.length ≤ (rs.foldl stratStep acc).length := by
  induction rs with
  | nil => intro acc; simp
  | cons r rs ih => intro acc; exact le_trans (stratStep_le acc r) (ih _)

theorem adoptFold_mem {α : Type} (rs : List (Except Unit (List α))) :
    ∀ acc : List α, rs.foldl stratStep acc = acc ∨ rs.foldl stratStep acc ∈ okLists rs := by
  induction rs with
  | nil => intro acc; left; rfl
  | cons r rs ih =>
    intro acc
    rw [List.foldl_cons]
    rcases ih (stratStep acc r) with h | h
    · rw [h]
      rcases stratStep_cases acc r with h1 | ⟨l, rfl, h1⟩
      · left; exact h1
      · right; rw [h1]; simp [okLists]
    · right
      cases r with
      | error e => simpa [okLists] using h
      | ok found => simp [okLists]; right; simpa [okLists] using h

theorem adoptFold_ge {α : Type} (rs : List (Except Unit (List α))) :
    ∀ (acc l : List α), l ∈ okLists rs → l.length ≤ (rs.foldl stratStep acc).length := by
  induction rs with
  | nil => intro acc l h; simp [okLists] at h
  | cons r rs ih =>
    intro acc l hl
    rw [List.foldl_cons]
    cases r with
    | error e =>
      have h : l ∈ okLists rs := by simpa [okLists] using hl
      exact ih _ l h
    | ok found =>
      have hl' : l = found ∨ l ∈ okLists rs := by simpa [okLists] using hl
      rcases hl' with rfl | h
      · refine le_trans ?_ (adoptFold_le rs (stratStep acc (Except.ok l)))
        simp only [stratStep]
        split
        · rename_i he
          simp [List.isEmpty_iff.mp he]
        · split
          · exact le_refl _
          · omega
      · exact ih _ l h

/-- C3: across the ordered selector strategies, `scrape_autotrader` adopts
a candidate set of greatest cardinality among the strategies that
succeeded — the adopted set is one strategy's result (or the initial empty
set), never a merge of two strategies' results, and every strategy's
result is no larger than it. -/
theorem C3_adopt_largest {α : Type} (rs : List (Except Unit (List α))) :
    (adoptLargest rs = [] ∨ adoptLargest rs ∈ okLists rs)
    ∧ ∀ l ∈ okLists rs, l.length ≤ (adoptLargest rs).length := by
  constructor
  · exact adoptFold_mem rs []
  · intro l hl
    exact adoptFold_ge rs [] l hl

/-- Witness for `C3_adopt_largest` on a concrete strategy run: two
strategies with sets of sizes 1 and 2 (plus one raising strategy). -/
theorem C3_adopt_largest_witness :
    ([3, 4] : List Nat).length ≤
      (adoptLargest [Except.ok [7], Except.error (), Except.ok [3, 4]]).length :=
  (C3_adopt_largest [Except.ok [7], Except.error (), Except.ok [3, 4]]).2 [3, 4] (by decide)

/-! ### C4: valuation fires only behind the plate-and-mileage gate -/

/-- C4: the pipeline body attempts a valuation only when a truthy detected
plate and a truthy mileage both exist: with either absent, the record's
valuation field is `"No plate/mileage"`, no `get_valuation` call is made,
and the result does not depend on the valuation session at all; conversely
any run that made a valuation call had the gate true. -/
theorem C4_gate (detect : String → Option String)
    (valBody valBody' : Except Unit (Option (List String))) (car : Car) :
    ((pyTruthy (plateLoopAux detect none (car.images.take 4)) &&
        pyTruthy car.mileage) = false →
      (process_car detect valBody car).valuation = "No plate/mileage" ∧
      (process_car detect valBody car).valCalls = 0 ∧
      process_car detect valBody car = process_car detect valBody' car)
    ∧ ((process_car detect valBody car).valCalls ≠ 0 →
      (pyTruthy (plateLoopAux detect none (car.images.take 4)) &&
        pyTruthy car.mileage) = true) := by
  constructor
  · intro h
    refine ⟨?_, ?_, ?_⟩ <;> simp [process_car, h]
  · intro h
    by_contra hc
    have hf : (pyTruthy (plateLoopAux detect none (car.images.take 4)) &&
        pyTruthy car.mileage) = false := by
      revert hc
      cases (pyTruthy (plateLoopAux detect none (car.images.take 4)) &&
        pyTruthy car.mileage) <;> simp
    exact h (by simp [process_car, hf])

/-- Witness for `C4_gate`: a listing with images but no mileage is marked
`"No plate/mileage"`. -/
theorem C4_gate_witness :
    (process_car (fun _ => some "AB12CDE") (Except.ok none)
      ⟨none, ["https://a/1.jpg"]⟩).valuation = "No plate/mileage" :=
  ((C4_gate (fun _ => some "AB12CDE") (Except.ok none) (Except.error ())
    ⟨none, ["https://a/1.jpg"]⟩).1 (by decide)).1

/-! ### C2: outcome taxonomy of the valuation path -/

/-- C2 counterexample: an exception raised inside the valuation session
(`get_valuation`'s `try` body) is caught by `get_valuation` itself and
surfaces as a clean no-result, so the record is marked `"Failed"`, not
`"Error"` — contradicting the claim that an exception anywhere in the
valuation path yields `"Error"`. -/
theorem C2_counterexample :
    (process_car (fun _ => some "AB12CDE") (Except.error ())
      ⟨some "45000", ["https://a/1.jpg"]⟩).valuation = "Failed" ∧
    (process_car (fun _ => some "AB12CDE") (Except.error ())
      ⟨some "45000", ["https://a/1.jpg"]⟩).valuation ≠ "Error" := by
  constructor
  · decide
  · decide

/-- C2 (amended): for a listing passing the plate-and-mileage gate:
exceptions raised inside `get_valuation`'s session are caught there and
yield no result; the record is marked `"Error"` only when the mileage
fails to parse as an integer in `process_cars` itself; otherwise the field
is the valuation when one is produced and truthy, and `"Failed"` on a
clean no-result (which includes caught in-session exceptions). -/
theorem C2_valuation_outcomes (detect : String → Option String) (car : Car)
    (hgate : (pyTruthy (plateLoopAux detect none (car.images.take 4)) &&
      pyTruthy car.mileage) = true) :
    (∀ e, get_valuation (Except.error e) = none)
    ∧ (∀ body, pyInt (car.mileage.getD "") = Except.error () →
        (process_car detect body car).valuation = "Error")
    ∧ (∀ body v, pyInt (car.mileage.getD "") = Except.ok v →
        (process_car detect body car).valuation =
          match get_valuation body with
          | some s => if s = "" then "Failed" else s
          | none => "Failed") := by
  refine ⟨fun e => rfl, ?_, ?_⟩
  · intro body hint
    simp [process_car, hgate, hint]
  · intro body v hint
    cases hv : get_valuation body <;> simp [process_car, hgate, hint, hv]

/-- Witness for `C2_valuation_outcomes`: concrete listing with plate and
mileage 45000, the valuation session raising. -/
theorem C2_valuation_outcomes_witness :
    (process_car (fun _ => some "AB12CDE") (Except.error ())
      ⟨some "45000", ["https://a/1.jpg"]⟩).valuation =
      match get_valuation (Except.error ()) with
      | some s => if s = "" then "Failed" else s
      | none => "Failed" :=
  (C2_valuation_outcomes (fun _ => some "AB12CDE") ⟨some "45000", ["https://a/1.jpg"]⟩
    (by decide)).2.2 (Except.error ()) 45000 (by rfl)

/-! ### C5: the price resolver keeps bounded amounts and returns the max -/

theorem pickMaxPair_none_iff (l : List (String × Nat)) :
    pickMaxPair l = none ↔ l = [] := by
  cases l <;> simp [pickMaxPair]

theorem maxPairStep_ge_left (b y : String × Nat) : b.2 ≤ (maxPairStep b y).2 := by
  unfold maxPairStep
  split <;> omega

theorem maxPairStep_ge_right (b y : String × Nat) : y.2 ≤ (maxPairStep b y).2 := by
  unfold maxPairStep
  split <;> omega

theorem pickFold_mem :
    ∀ (xs : List (String × Nat)) (x : String × Nat),
      xs.foldl maxPairStep x = x ∨ xs.foldl maxPairStep x ∈ xs := by
  intro xs
  induction xs with
  | nil => intro x; left; rfl
  | cons y ys ih =>
    intro x
    rw [List.foldl_cons]
    rcases ih (maxPairStep x y) with h | h
    · rw [h]
      unfold maxPairStep
      split
      · right; exact List.mem_cons_self _ _
      · left; rfl
    · right; exact List.mem_cons_of_mem _ h

theorem pickFold_ge :
    ∀ (xs : List (String × Nat)) (x : String × Nat),
      x.2 ≤ (xs.foldl maxPairStep x).2 ∧
      ∀ q ∈ xs, q.2 ≤ (xs.foldl maxPairStep x).2 := by
  intro xs
  induction xs with
  | nil =>
    intro x
    exact ⟨le_refl _, by simp⟩
  | cons y ys ih =>
    intro x
    rw [List.foldl_cons]
    obtain ⟨h1, h2⟩ := ih (maxPairStep x y)
    refine ⟨le_trans (maxPairStep_ge_left x y) h1, ?_⟩
    intro q hq
    rcases List.mem_cons.mp hq with rfl | hq
    · exact le_trans (maxPairStep_ge_right x q) h1
    · exact h2 q hq

theorem foundPrices_bounds (elems : List String) :
    ∀ p ∈ foundPrices elems, 100 ≤ p.2 ∧ p.2 ≤ 50000 := by
  intro p hp
  simp only [foundPrices, List.mem_flatMap] at hp
  obtain ⟨e, _, hp⟩ := hp
  split at hp
  · rw [List.mem_filterMap] at hp
    obtain ⟨m, _, hf⟩ := hp
    split at hf
    · rename_i hb
      cases hf
      exact hb
    · exact absurd hf (by simp)
  · simp at hp

/-- C5: every candidate retained by the price extractor has its integer
value (decimal part truncated) within `[100, 50000]`; the extractor
returns the amount of maximal value among the retained candidates and
`none` exactly when none survives; on the fragments `"£250 fee"`,
`"£8,450"`, `"£12"` it selects `"£8,450"` (`"£12"` being below the lower
bound), and truncation drops `"£99.99"` (value 99 < 100) while keeping
`"£150.75"` (value 150). -/
theorem C5_price_resolver :
    (∀ elems : List String, extractPrice elems = none ↔ foundPrices elems = [])
    ∧ (∀ (elems : List String) (s : String), extractPrice elems = some s →
        ∃ v, (s, v) ∈ foundPrices elems ∧ 100 ≤ v ∧ v ≤ 50000 ∧
          ∀ q ∈ foundPrices elems, q.2 ≤ v)
    ∧ extractPrice ["£250 fee", "£8,450", "£12"] = some "£8,450"
    ∧ extractPrice ["£99.99", "£150.75"] = some "£150.75" := by
  refine ⟨?_, ?_, by decide, by decide⟩
  · intro elems
    constructor
    · intro h
      unfold extractPrice at h
      cases hp : pickMaxPair (foundPrices elems) with
      | none => exact (pickMaxPair_none_iff _).mp hp
      | some pv => rw [hp] at h; simp at h
    · intro h
      unfold extractPrice
      rw [h]
      rfl
  · intro elems s hs
    unfold extractPrice at hs
    cases hp : pickMaxPair (foundPrices elems) with
    | none => rw [hp] at hs; simp at hs
    | some pv =>
      rw [hp] at hs
      have hs1 : pv.1 = s := by
        simpa using hs
      cases hl : foundPrices elems with
      | nil => rw [hl] at hp; simp [pickMaxPair] at hp
      | cons x xs =>
        rw [hl] at hp
        simp only [pickMaxPair, Option.some.injEq] at hp
        have hmem : pv ∈ x :: xs := by
          rcases pickFold_mem xs x with h | h
          · rw [← hp, h]; exact List.mem_cons_self _ _
          · rw [← hp]; exact List.mem_cons_of_mem _ h
        have hbnd := foundPrices_bounds elems pv (hl.symm ▸ hmem)
        refine ⟨pv.2, ?_, hbnd.1, hbnd.2, ?_⟩
        · rw [← hs1]
          exact hmem
        · intro q hq
          obtain ⟨h1, h2⟩ := pickFold_ge xs x
          rcases List.mem_cons.mp hq with rfl | hq
          · rw [← hp]; exact h1
          · rw [← hp]; exact h2 q hq

/-- Witness for `C5_price_resolver`: the maximality clause instantiated on
the concrete fragment list from the spec. -/
theorem C5_price_resolver_witness :
    ∃ v, ("£8,450", v) ∈ foundPrices ["£250 fee", "£8,450", "£12"] ∧
      100 ≤ v ∧ v ≤ 50000 ∧
      ∀ q ∈ foundPrices ["£250 fee", "£8,450", "£12"], q.2 ≤ v :=
  C5_price_resolver.2.1 ["£250 fee", "£8,450", "£12"] "£8,450" (by decide)

/-! ### C6: the plate-pattern stage of one OCR pass -/

theorem head_filter_find {α : Type} (p : α → Bool) :
    ∀ l : List α, (l.filter p).head? = l.find? p := by
  intro l
  induction l with
  | nil => rfl
  | cons x xs ih =>
    cases hp : p x <;> simp [List.filter_cons, List.find?_cons, hp, ih]

/-- The code filters to length ≥ 6 before dedup and then takes the head;
that equals taking the first length-≥-6 candidate of the raw cleaned
stream (dedup keeps first occurrences, so it changes neither operation). -/
theorem detect_from_text_eq_find (s : String) :
    detect_from_text s =
      ((allPlateCandidates (normOcr s)).find? (fun c => decide (6 ≤ c.length))).map
        (fun c => String.mk c) := by
  unfold detect_from_text
  have h1 : ∀ l : List (List Char),
      (match dedupGo (fun c => c) [] l with
        | [] => none
        | p :: _ => some (String.mk p)) =
      (dedupGo (fun c => c) [] l).head?.map (fun c => String.mk c) := by
    intro l
    cases hdl : dedupGo (fun c => c) [] l <;> simp
  rw [h1, dedupGo_head]
  unfold platesFound
  rw [head_filter_find]

/-- C6: plate candidates are the matches of the six patterns in their
listed order with spaces and hyphens stripped; the returned plate is the
first candidate of length at least 6 (deduplication keeps first
occurrences, so it does not affect this choice); any returned plate has
length ≥ 6 and contains no separator; the spec's example texts resolve as
stated, and a text whose only candidates normalize below 6 characters
yields no plate. -/
theorem C6_plate_patterns :
    (∀ s : String, detect_from_text s =
      ((allPlateCandidates (normOcr s)).find? (fun c => decide (6 ≤ c.length))).map
        (fun c => String.mk c))
    ∧ (∀ s p : String, detect_from_text s = some p →
        6 ≤ p.length ∧ ∀ c ∈ p.data, c ≠ ' ' ∧ c ≠ '-')
    ∧ detect_from_text "AB12 CDE" = some "AB12CDE"
    ∧ detect_from_text "AB-12-CDE" = some "AB12CDE"
    ∧ detect_from_text "A123 BCD" = some "A123BCD"
    ∧ detect_from_text "A1 BCD" = none := by
  refine ⟨detect_from_text_eq_find, ?_, by decide, by decide, by decide, by decide⟩
  intro s p hp
  rw [detect_from_text_eq_find] at hp
  rw [Option.map_eq_some'] at hp
  obtain ⟨c, hfind, hmk⟩ := hp
  have hlen : 6 ≤ c.length := by
    have := List.find?_some hfind
    simpa using this
  have hmem : c ∈ allPlateCandidates (normOcr s) := List.mem_of_find?_eq_some hfind
  unfold allPlateCandidates at hmem
  rw [List.mem_map] at hmem
  obtain ⟨m, _, hclean⟩ := hmem
  constructor
  · rw [← hmk]
    exact hlen
  · intro ch hch
    rw [← hmk] at hch
    have hch' : ch ∈ c := hch
    rw [← hclean] at hch'
    unfold cleanPlate at hch'
    have := List.mem_filter.mp hch'
    constructor
    · intro he
      rw [he] at this
      simp at this
    · intro he
      rw [he] at this
      simp at this

/-- Witness for `C6_plate_patterns`: the shape clause applied to the
detection result on `"AB12 CDE"`. -/
theorem C6_plate_patterns_witness :
    6 ≤ ("AB12CDE" : String).length ∧
      ∀ c ∈ ("AB12CDE" : String).data, c ≠ ' ' ∧ c ≠ '-' :=
  C6_plate_patterns.2.1 "AB12 CDE" "AB12CDE" (by decide)

/-! ### C7: the recognizer degrades to `none`, never an exception -/

theorem dlpLoop_none (resp : Nat → OcrResp) :
    ∀ n i : Nat, (∀ j, j < n → noPlateResp (resp (i + j))) → dlpLoop resp i n = none := by
  intro n
  induction n with
  | zero => intro i _; rfl
  | succ n ih =>
    intro i h
    have h0 : noPlateResp (resp i) := by
      have := h 0 n.succ_pos
      simpa using this
    have hshift : ∀ j, j < n → noPlateResp (resp (i + 1 + j)) := by
      intro j hj
      have hh := h (j + 1) (by omega)
      have he : i + (j + 1) = i + 1 + j := by omega
      rwa [he] at hh
    cases hr : resp i with
    | raise =>
      simp only [dlpLoop, hr]
      exact ih (i + 1) hshift
    | errored =>
      simp only [dlpLoop, hr]
      exact ih (i + 1) hshift
    | text s =>
      have hd : detect_from_text s = none := by
        rw [hr] at h0
        exact h0
      simp only [dlpLoop, hr]
      by_cases hs : s = ""
      · rw [if_pos hs]
      · rw [if_neg hs, hd]
        exact ih (i + 1) hshift

/-- C7: for every image URL and every OCR behaviour whose attempts, up to
the retry ceiling, all raise, report a provider error, or return text with
no surviving plate candidate, `detect_license_plate` returns `none`; the
embedding is a total function into `Option` because the per-attempt
`except Exception` handler absorbs every raised attempt, so no exception
reaches the caller. -/
theorem C7_recognizer_none (resp : Nat → OcrResp) (image_url : String)
    (max_retries : Nat) (h : ∀ j, j < max_retries → noPlateResp (resp j)) :
    detect_license_plate resp image_url max_retries = none := by
  unfold detect_license_plate
  split
  · rfl
  · exact dlpLoop_none resp max_retries 0 (fun j hj => by simpa using h j hj)

/-- Witness for `C7_recognizer_none`: every attempt reports a provider
error. -/
theorem C7_recognizer_none_witness :
    detect_license_plate (fun _ => OcrResp.errored) "https://a/1.jpg" 3 = none :=
  C7_recognizer_none (fun _ => OcrResp.errored) "https://a/1.jpg" 3 (fun _ _ => trivial)

/-! ### C8: image-list invariants of the two scrapers -/

theorem pickImgSrc_good : ∀ (attrs : List (Option String)) (u : String),
    pickImgSrc attrs = some u → goodImgUrl u = true := by
  intro attrs
  induction attrs with
  | nil => intro u h; simp [pickImgSrc] at h
  | cons a rest ih =>
    intro u h
    cases a with
    | none =>
      simp only [pickImgSrc] at h
      exact ih u h
    | some s =>
      simp only [pickImgSrc] at h
      split at h
      · cases h
        assumption
      · exact ih u h

theorem extract_images_spec (imgs : List (List (Option String))) (m : Nat) :
    (extract_images_from_detail_page imgs m).length ≤ m ∧
    (extract_images_from_detail_page imgs m).Nodup ∧
    ∀ u ∈ extract_images_from_detail_page imgs m, goodImgUrl u = true := by
  refine ⟨?_, ?_, ?_⟩
  · exact List.length_take_le m _
  · have hp := dedupGo_pairwise (fun u : String => u) [] (imgs.filterMap pickImgSrc)
    have hnd : (dedupGo (fun u : String => u) [] (imgs.filterMap pickImgSrc)).Nodup := hp
    exact hnd.sublist (List.take_sublist m _)
  · intro u hu
    have hu2 : u ∈ dedupGo (fun u : String => u) [] (imgs.filterMap pickImgSrc) :=
      List.mem_of_mem_take hu
    have hu3 : u ∈ imgs.filterMap pickImgSrc :=
      (dedupGo_sublist (fun u : String => u) [] _).subset hu2
    rw [List.mem_filterMap] at hu3
    obtain ⟨attrs, _, hpick⟩ := hu3
    exact pickImgSrc_good attrs u hpick

theorem atBuild_images (c : ATCand) (r : ATRecord) (h : atBuild c = some r) :
    r.images = [] ∨ r.images = extract_images_from_detail_page c.detailImgs 4 := by
  unfold atBuild at h
  split at h
  · simp at h
  · split at h
    · simp at h
    · split at h
      · simp at h
      · split at h
        · simp at h
        · split at h
          · simp at h
          · injection h with h2
            subst h2
            cases c.detailLink <;> simp

theorem phImages_spec (imgs : List (Option String × Option String)) :
    (phImages imgs).length ≤ 4 ∧
    ∀ u ∈ phImages imgs, ∃ raw : String, lcontains raw "placeholder" = false ∧
      u = pyReplace (urljoinPH raw) "/Thumbnail/" "/Fullsize/" := by
  constructor
  · exact List.length_take_le 4 _
  · intro u hu
    have hu2 := List.mem_of_mem_take hu
    rw [List.mem_filterMap] at hu2
    obtain ⟨sd, _, hf⟩ := hu2
    cases hpo : pyOr sd.1 sd.2 with
    | none => rw [hpo] at hf; simp at hf
    | some w =>
      rw [hpo] at hf
      dsimp only at hf
      by_cases hc : w ≠ "" ∧ lcontains w "placeholder" = false
      · rw [if_pos hc] at hf
        injection hf with h2
        exact ⟨w, hc.2, h2.symm⟩
      · rw [if_neg hc] at hf
        simp at hf

theorem phBuild_images (m : Nat) (c : PHCand) (r : PHRecord)
    (h : phBuild m c = some r) : r.images = phImages c.imgs := by
  unfold phBuild at h
  split at h
  · simp at h
  · split at h
    · injection h with h2
      subst h2
      rfl
    · simp at h

/-- C8 counterexample: a PistonHeads candidate whose two `img` elements
both carry the same logo URL is emitted as a record whose images contain a
URL with `"logo"` in it and a duplicate — the claim's logo/icon exclusion
and dedup do not hold on the PistonHeads source. -/
theorem C8_counterexample :
    scrape_pistonheads 2 [phCandLogo] =
      [⟨"BMW 320d M Sport", "£9,000",
        ["https://x/logo.jpg", "https://x/logo.jpg"]⟩] ∧
    lcontains "https://x/logo.jpg" "logo" = true ∧
    ¬(["https://x/logo.jpg", "https://x/logo.jpg"] : List String).Nodup := by
  refine ⟨by decide, by decide, by decide⟩

/-- C8 (amended): image lists are ordered by first occurrence and capped
at 4 on both sources.  On AutoTrader they are additionally deduplicated
and every URL starts with `http` and excludes `placeholder`/`logo`/`icon`
case-insensitively.  On PistonHeads only the raw attribute value is
filtered, and only against `placeholder`: every emitted image URL is the
absolutized, `/Thumbnail/`→`/Fullsize/`-rewritten form of an attribute
value that did not contain `placeholder`; logo/icon URLs pass through and
duplicates are not removed. -/
theorem C8_images_invariants :
    (∀ (cs : List ATCand) (r : ATRecord), r ∈ scrape_autotrader cs →
      r.images.length ≤ 4 ∧ r.images.Nodup ∧ ∀ u ∈ r.images, goodImgUrl u = true)
    ∧ (∀ (m : Nat) (cs : List PHCand) (r : PHRecord), r ∈ scrape_pistonheads m cs →
      r.images.length ≤ 4 ∧ ∀ u ∈ r.images, ∃ raw : String,
        lcontains raw "placeholder" = false ∧
        u = pyReplace (urljoinPH raw) "/Thumbnail/" "/Fullsize/") := by
  constructor
  · intro cs r hr
    have hr2 : r ∈ atBuildAll cs := (dedupGo_sublist atKey [] _).subset hr
    rw [atBuildAll, List.mem_filterMap] at hr2
    obtain ⟨c, _, hb⟩ := hr2
    rcases atBuild_images c r hb with h | h
    · rw [h]
      exact ⟨by simp, by simp, by simp⟩
    · rw [h]
      exact extract_images_spec c.detailImgs 4
  · intro m cs r hr
    have hr2 : r ∈ phBuildAll m cs := (dedupGo_sublist phKey [] _).subset hr
    rw [phBuildAll, List.mem_filterMap] at hr2
    obtain ⟨c, _, hb⟩ := hr2
    rw [phBuild_images m c r hb]
    exact phImages_spec c.imgs

/-- Witness for `C8_images_invariants`: the PistonHeads clause applied to
the record emitted for `phCandLogo`. -/
theorem C8_images_invariants_witness :
    (⟨"BMW 320d M Sport", "£9,000",
      ["https://x/logo.jpg", "https://x/logo.jpg"]⟩ : PHRecord).images.length ≤ 4 ∧
    ∀ u ∈ (⟨"BMW 320d M Sport", "£9,000",
      ["https://x/logo.jpg", "https://x/logo.jpg"]⟩ : PHRecord).images,
      ∃ raw : String, lcontains raw "placeholder" = false ∧
        u = pyReplace (urljoinPH raw) "/Thumbnail/" "/Fullsize/" :=
  C8_images_invariants.2 2 [phCandLogo] _ (by decide)

/-! ### C9: `main` never fails fast on missing credentials -/

/-- C9 (code bug): `main` performs no credential validation at all — for
every environment, including one in which every credential variable is
unset, the first top-level action is the full scrape (`process_cars`);
with credentials missing, `os.getenv` substitutes the placeholder defaults
and the run proceeds to scrape and only attempts the email at the very
end, so there is no fail-fast abort before scraping. -/
theorem C9_no_failfast :
    (∀ env : Env, (mainSteps env).head? = some MainAction.processCars)
    ∧ mainSteps ⟨none, none, none⟩ =
        [MainAction.processCars, MainAction.saveCsv,
          MainAction.sendReport "your-email@gmail.com" "xxxx xxxx xxxx xxxx"
            "your-email@gmail.com"] :=
  ⟨fun _ => rfl, rfl⟩

/-! ### C10: the PistonHeads `min_images` acceptance condition -/

theorem phBuild_min (m : Nat) (c : PHCand) (r : PHRecord)
    (h : phBuild m c = some r) : m ≤ r.images.length := by
  unfold phBuild at h
  split at h
  · simp at h
  · split at h
    · rename_i hc
      injection h with h2
      subst h2
      exact hc.2.2
    · simp at h

theorem phBuild_drop (m : Nat) (c : PHCand)
    (h : (phImages c.imgs).length < m) : phBuild m c = none := by
  unfold phBuild
  split
  · rfl
  · rw [if_neg]
    intro hc
    exact absurd hc.2.2 (by omega)

/-- C10: a PistonHeads candidate is emitted as a record only if, after
capping, it carries at least `min_images` image URLs (default 2): every
emitted record has at least that many images, and a candidate with fewer
images is silently dropped — the batch result is as if it were absent —
even when its title and price both resolved. -/
theorem C10_min_images :
    (∀ (m : Nat) (cs : List PHCand) (r : PHRecord),
      r ∈ scrape_pistonheads m cs → m ≤ r.images.length)
    ∧ (∀ (m : Nat) (c : PHCand) (cs : List PHCand),
      (phImages c.imgs).length < m →
      scrape_pistonheads m (c :: cs) = scrape_pistonheads m cs)
    ∧ (∀ (cs : List PHCand) (r : PHRecord),
      r ∈ scrape_pistonheads 2 cs → 2 ≤ r.images.length) := by
  have h1 : ∀ (m : Nat) (cs : List PHCand) (r : PHRecord),
      r ∈ scrape_pistonheads m cs → m ≤ r.images.length := by
    intro m cs r hr
    have hr2 : r ∈ phBuildAll m cs := (dedupGo_sublist phKey [] _).subset hr
    rw [phBuildAll, List.mem_filterMap] at hr2
    obtain ⟨c, _, hb⟩ := hr2
    exact phBuild_min m c r hb
  refine ⟨h1, ?_, fun cs r hr => h1 2 cs r hr⟩
  intro m c cs h
  simp [scrape_pistonheads, phBuildAll, List.filterMap_cons, phBuild_drop m c h]

/-- Witness for `C10_min_images`: `phCandLogo` has 2 images, so with
`min_images = 3` it contributes nothing to the batch. -/
theorem C10_min_images_witness :
    scrape_pistonheads 3 (phCandLogo :: []) = scrape_pistonheads 3 [] :=
  C10_min_images.2.1 3 phCandLogo [] (by decide)
